import Mathlib

/-!
A shallow embedding of the `swoc::Errata` component of the libswoc library
(header `code/include/swoc/Errata.h`) together with proofs about it.

The embedding has two layers.

* A *value* layer: `DataV` mirrors `Errata::Data` (reference count, note
  stack, arena, nesting level, aggregate severity); an `Errata` handle is a
  nullable pointer to such a block, viewed at the value level as
  `Option DataV`.  Pure queries (`is_ok`, `count`, `empty`, `front`,
  boolean conversion) are translated directly from the inline methods of
  the header.

* A *heap* layer: `Store` holds the addressed blocks, the registered sink
  list and the sink-invocation log; handles are `Option Nat` (a nullable
  address).  The reference-counting special members (copy construction,
  move construction, move assignment) are translated from the inline
  methods of the header; the out-of-line methods of `Errata.cc`
  (`release`, `clear`, `writeable_data`, `note`, `note_localized`,
  `Data::localize`, the destructor) are not part of the sources and are
  modelled from the specification, which each doc comment notes.

The external collaborators (the `MemArena` bump allocator, the intrusive
list, the `bwf` text renderer) are modelled at the interface the
specification gives for them: the arena is a current-block remnant plus a
record of fresh block allocations and of the strings copied ("localized")
into it; the renderer is an opaque full rendering (a `String`) together
with the `FixedBufferWriter` overflow discipline (`error()` is set exactly
when the full extent exceeds the target span's capacity, while `extent()`
always reports the full length).

The C++ `Errata::Annotation` type is called `Note` here; its fields are
those of the source struct (`_severity`, `_level`, `_text`).
-/

namespace Swoc

/-- `enum class Severity : uint8_t { DIAG, INFO, WARN, ERROR }`. -/
inductive Severity : Type where
  | DIAG
  | INFO
  | WARN
  | ERROR
deriving DecidableEq, Repr

/-- Numeric value of the severity enumerator (its `uint8_t` value). -/
def Severity.val : Severity → Nat
  | .DIAG => 0
  | .INFO => 1
  | .WARN => 2
  | .ERROR => 3

/-- `operator<` on `Severity` (integral comparison of the enum values). -/
def sevLt (a b : Severity) : Bool :=
  a.val < b.val

/-- `std::max` on `Severity` under the enum ordering. -/
def sevMax (a b : Severity) : Severity :=
  if sevLt a b then b else a

/-- `Errata::DEFAULT_SEVERITY{Severity::DIAG}`. -/
def DEFAULT_SEVERITY : Severity := Severity.DIAG

/-- `Errata::FAILURE_SEVERITY{Severity::WARN}`. -/
def FAILURE_SEVERITY : Severity := Severity.WARN

/-- `Errata::Annotation`: severity, nesting level and text of one message.
The intrusive-list links are represented by membership of a `Note` in its
block's note list rather than by explicit pointers.  Field defaults are
those of the source (`_severity{Errata::DEFAULT_SEVERITY}`, `_level{0}`,
empty `_text`). -/
structure Note where
  severity : Severity := DEFAULT_SEVERITY
  level : Nat := 0
  text : String := ""
deriving DecidableEq, Repr

/-- `Errata::NIL_NOTE`, "used for returns when no data is present": a
default-constructed annotation. -/
def NIL_NOTE : Note := {}

/-- The `swoc::MemArena` collaborator, modelled from the spec at the
interface it offers (consumed arena allocator, spec section 6): the unused
remnant of the current block, the sizes of fresh block allocations made so
far, and the strings copied into the arena by `Data::localize`. -/
structure ArenaV where
  remnant : Nat := 0
  freshAllocs : List Nat := []
  stored : List String := []
deriving DecidableEq, Repr

/-- Modelled from the spec (consumed arena allocator): `allocate(n)` hands
out `n` bytes, taken from the current block's remnant when they fit there
and from a freshly allocated block otherwise.  The unused tail of a fresh
block is not modelled (remnant 0 afterwards). -/
def ArenaV.alloc (a : ArenaV) (n : Nat) : ArenaV :=
  if n ≤ a.remnant then
    { a with remnant := a.remnant - n }
  else
    { a with remnant := 0, freshAllocs := a.freshAllocs ++ [n] }

/-- `Errata::Data`: the shared payload.  `notes` is the message stack with
the most recently added note first (`IntrusiveDList` head = top of
stack). -/
structure DataV where
  ref_count : Int := 0
  notes : List Note := []
  arena : ArenaV := {}
  level : Nat := 0
  severity : Severity := DEFAULT_SEVERITY
deriving DecidableEq, Repr

/-- `Errata::Data::empty`: `return _notes.empty();`. -/
def DataV.emptyq (d : DataV) : Bool :=
  d.notes.length == 0

/-- Modelled from the spec: `Errata::Data::localize` (defined in
`Errata.cc`, not among the sources) copies `src` into this block's arena
and returns the view of the copy.  The copy is byte-identical to the
source, so the returned text is the same string, now recorded in
`arena.stored`. -/
def DataV.localize (d : DataV) (src : String) : DataV × String :=
  let a := d.arena.alloc src.length
  ({ d with arena := { a with stored := a.stored ++ [src] } }, src)

/-- The value view of an `Errata` handle: `Data *_data{nullptr}`, i.e. a
nullable block.  `none` is the empty (successful) handle. -/
structure Errata where
  data : Option DataV := none
deriving DecidableEq, Repr

/-- `Errata::empty`: `return _data == nullptr || _data->_notes.count() == 0;`. -/
def Errata.emptyq (e : Errata) : Bool :=
  match e.data with
  | none => true
  | some d => d.notes.length == 0

/-- `Errata::count`: `return _data ? _data->_notes.count() : 0;`. -/
def Errata.count (e : Errata) : Nat :=
  match e.data with
  | none => 0
  | some d => d.notes.length

/-- `Errata::is_ok`:
`return 0 == _data || 0 == _data->_notes.count() || _data->_severity < FAILURE_SEVERITY;`. -/
def Errata.is_ok (e : Errata) : Bool :=
  match e.data with
  | none => true
  | some d => d.notes.length == 0 || sevLt d.severity FAILURE_SEVERITY

/-- `Errata::operator bool`: `return this->is_ok();`. -/
def Errata.toBool (e : Errata) : Bool :=
  e.is_ok

/-- `Errata::operator!`: `return !this->is_ok();`. -/
def Errata.bang (e : Errata) : Bool :=
  !e.is_ok

/-- `Errata::front`: `return *(_data->_notes.head());`.  A null `_data`,
or a null `head()` of an empty list, is dereferenced; the undefined
behavior of that dereference is modelled as `none`. -/
def Errata.front (e : Errata) : Option Note :=
  match e.data with
  | none => none
  | some d => d.notes.head?

/-- Value view of `Errata::writeable_data` for a uniquely owned handle
(the shared-reference check lives in the heap layer).  Modelled from the
spec where the body (`Errata.cc`) is not among the sources: the first
mutating call on an empty handle allocates a fresh block with reference
count 1; otherwise the existing block is used. -/
def Errata.writeableView (e : Errata) : DataV :=
  match e.data with
  | none => { ref_count := 1 }
  | some d => d

/-- Modelled from the spec: `Errata::note_localized` (defined in
`Errata.cc`, not among the sources): appends a new annotation, whose text
is already in this block's arena, at the front of the note stack
(most-recent-first) with the block's nesting level, and updates
`aggregate_severity = max(aggregate_severity, severity)`. -/
def DataV.note_localized (d : DataV) (severity : Severity) (text : String) : DataV :=
  { d with
    notes := { severity := severity, level := d.level, text := text } :: d.notes
    severity := sevMax d.severity severity }

/-- Modelled from the spec: `Errata::note(Severity, std::string_view)`
(defined in `Errata.cc`, not among the sources): ensures a uniquely owned
block, copies the text into the block's arena, and pushes the annotation. -/
def Errata.note (e : Errata) (severity : Severity) (text : String) : Errata :=
  let d := e.writeableView
  let p := d.localize text
  { data := some (p.1.note_localized severity p.2) }

/-- Modelled from the spec: `Errata::clear` (defined in `Errata.cc`, not
among the sources) resets the handle to the empty state, at the value
level dropping the block. -/
def Errata.clearE (_e : Errata) : Errata :=
  { data := none }

/-- Result of `Errata::note_v`: the updated handle, the text of the
annotation it recorded, whether the fast path (render directly into the
current block's remnant) was taken, and how many times the renderer ran. -/
structure NoteVOut where
  errata : Errata
  recorded : String
  fast : Bool
  renders : Nat
deriving DecidableEq, Repr

/-- `Errata::note_v(severity, fmt, args)`, translated from the header with
the renderer (an external collaborator) abstracted by the full rendering
`txt` of `fmt` against `args`.  `FixedBufferWriter bw{span}` over the
remnant: `bw.print_v(fmt, args).error()` holds exactly when the full
extent exceeds the span's size, and `bw.extent()` is always the full
length.  On the fast path the source commits `bw.extent()` bytes of the
remnant (`span = span.prefix(bw.extent()); data->alloc(bw.extent());`);
otherwise it allocates `bw.extent()` fresh bytes and renders again. -/
def Errata.note_v (e : Errata) (severity : Severity) (txt : String) : NoteVOut :=
  let d := e.writeableView
  if txt.length ≤ d.arena.remnant then
    let d2 := { d with arena := d.arena.alloc txt.length }
    { errata := { data := some (d2.note_localized severity txt) }
      recorded := txt, fast := true, renders := 1 }
  else
    let d2 := { d with arena := d.arena.alloc txt.length }
    { errata := { data := some (d2.note_localized severity txt) }
      recorded := txt, fast := false, renders := 2 }

/-- Modelled from the spec: the loop body of `Errata::note(self const&)`
(defined in `Errata.cc`, not among the sources): each of the donor's
annotations is copied into this block, its text localized into this
block's arena, preserving the donor's relative order, with the donor's
annotations placed ahead (newest-first) of the existing ones. -/
def DataV.absorb (d : DataV) (ns : List Note) : DataV :=
  match ns with
  | [] => d
  | n :: rest =>
    let d1 := d.absorb rest
    let p := d1.localize n.text
    { p.1 with
      notes := { severity := n.severity, level := p.1.level, text := p.2 } :: p.1.notes
      severity := sevMax p.1.severity n.severity }

/-- Modelled from the spec: `Errata::note(self const&)` (defined in
`Errata.cc`, not among the sources): merges the donor's annotations into
this handle, re-homing each text into the receiver's arena. -/
def Errata.noteCopy (this that : Errata) : Errata :=
  match that.data with
  | none => this
  | some dThat => { data := some (this.writeableView.absorb dThat.notes) }

/-- `Errata::note(self&&)`, translated from the header:
`this->note(that); that.clear(); return *this;`.  Yields the updated
receiver and the donor as it is left afterwards. -/
def Errata.noteMove (this that : Errata) : Errata × Errata :=
  (this.noteCopy that, that.clearE)

/-- `Rv<int>`: `result_type _r;` (no default member initializer) paired
with `Errata _errata`.  A default-initialized `int` holds an indeterminate
value, modelled as `none`; a determinate result is `some`. -/
structure RvInt where
  r : Option Int
  errata : Errata
deriving DecidableEq, Repr

/-- `Rv<R>::Rv(Errata&&)`: the mem-initializer list is
`_errata{std::move(errata)}` alone, so `_r` is default-initialized, which
for `int` leaves it indeterminate (`none`). -/
def RvInt.ofErrata (e : Errata) : RvInt :=
  { r := none, errata := e }

/-- `Rv<R>::is_ok`: `return _errata.is_ok();`. -/
def RvInt.is_ok (rv : RvInt) : Bool :=
  rv.errata.is_ok

/-- `Rv<R>::clear`: the body is `errata().clear();` and nothing else,
although the declared return type is `self_type &` — there is no return
statement, so no reference is returned (the `none` in the second
component); using it is undefined behavior. -/
def RvInt.clear (rv : RvInt) : RvInt × Option Unit :=
  ({ rv with errata := rv.errata.clearE }, none)

/-- The two assignment-operator forms `Errata` declares. -/
inductive AssignForm : Type where
  | copyAssign
  | moveAssign
deriving DecidableEq, Repr

/-- Which assignment operators the source defines:
`operator=(self_type const &) = delete;` ("no copy assignemnt") while
`operator=(self_type &&)` is defined. -/
def assignOpDefined : AssignForm → Bool
  | .copyAssign => false
  | .moveAssign => true

/-! ## The heap layer

Blocks live at addresses in a store; a handle is `Data *_data`, a nullable
address.  The store also carries the process-wide sink registry (sink
identifiers in registration order) and the log of sink invocations made so
far, each a sink identifier with the read-only view it received. -/

/-- `Data *_data{nullptr}`: a nullable address of a block. -/
abbrev Handle := Option Nat

/-- The heap: addressed blocks (`none` once released), the registered
sinks in registration order, and the sink-invocation log. -/
structure Store where
  blocks : List (Option DataV) := []
  sinks : List Nat := []
  log : List (Nat × List Note) := []
deriving DecidableEq, Repr

/-- The block at address `a`, `none` if released or out of range. -/
def Store.blockAt (s : Store) (a : Nat) : Option DataV :=
  s.blocks.getD a none

/-- Replace the cell at address `a`. -/
def Store.setBlock (s : Store) (a : Nat) (b : Option DataV) : Store :=
  { s with blocks := s.blocks.set a b }

/-- `Errata::Errata(self_type const &)`, translated from the header:
`if (nullptr != (_data = that._data)) { ++(_data->_ref_count); }` — the
new handle aliases the donor's block and bumps its reference count. -/
def Store.copyCtor (s : Store) (that : Handle) : Store × Handle :=
  match that with
  | none => (s, none)
  | some a =>
    match s.blockAt a with
    | none => (s, some a)
    | some b => (s.setBlock a (some { b with ref_count := b.ref_count + 1 }), some a)

/-- `Errata::Errata(self_type &&)`, translated from the header:
`std::swap(_data, that._data);` against a null-initialized member — the
new handle takes the donor's pointer, the donor is left null, and no
reference count is touched.  Result: (new handle, donor afterwards). -/
def moveCtor (that : Handle) : Handle × Handle :=
  (that, none)

/-- Modelled from the spec: `Errata::release` (defined in `Errata.cc`, not
among the sources): decrements the block's reference count; when the count
reaches zero the block is finalized — if it still holds notes, every
registered sink is invoked, once each, in registration order, with the
read-only view of the erratum, and only then is the block's memory
released; an empty block is released silently.  The handle is nulled. -/
def Store.release (s : Store) (h : Handle) : Store × Handle :=
  match h with
  | none => (s, none)
  | some a =>
    match s.blockAt a with
    | none => (s, none)
    | some b =>
      if b.ref_count - 1 = 0 then
        let s1 :=
          if b.notes.isEmpty then s
          else { s with log := s.log ++ s.sinks.map (fun id => (id, b.notes)) }
        (s1.setBlock a none, none)
      else
        (s.setBlock a (some { b with ref_count := b.ref_count - 1 }), none)

/-- Modelled from the spec: `Errata::clear` (defined in `Errata.cc`, not
among the sources): "Remove all messages" (header doc) and release the
reference; per the header note "This is also used to prevent logging" and
the spec ("the explicit mechanism to suppress sink dispatch"), the
messages are removed before the release, so finalization through `clear`
never invokes the sinks. -/
def Store.clearOp (s : Store) (h : Handle) : Store × Handle :=
  match h with
  | none => (s, none)
  | some a =>
    match s.blockAt a with
    | none => (s, none)
    | some b => (s.setBlock a (some { b with notes := [] })).release (some a)

/-- The fatal contract violations of the heap layer. -/
inductive Fatal : Type where
  | sharedMutation
  | danglingHandle
deriving DecidableEq, Repr

/-- Modelled from the spec: `Errata::writeable_data` (defined in
`Errata.cc`, not among the sources); the header documents "It is a fatal
error to ask for writeable data if there are shared references."  An empty
handle allocates a fresh block with reference count 1 at a fresh address;
a uniquely owned block (`ref_count == 1`) is handed out for mutation; a
shared block (`ref_count > 1`) is the fatal contract violation and nothing
is mutated. -/
def Store.writeable_data (s : Store) (h : Handle) : Except Fatal (Store × Nat) :=
  match h with
  | none => .ok ({ s with blocks := s.blocks ++ [some { ref_count := 1 }] }, s.blocks.length)
  | some a =>
    match s.blockAt a with
    | none => .error .danglingHandle
    | some b => if b.ref_count = 1 then .ok (s, a) else .error .sharedMutation

/-- The heap-level mutating `note`: `Errata::note(severity, text)` goes
through `writeable_data`, so it is fatal on a shared block; on a uniquely
owned block the text is localized and the annotation pushed. -/
def Store.noteOp (s : Store) (h : Handle) (sev : Severity) (text : String) :
    Except Fatal (Store × Handle) :=
  match s.writeable_data h with
  | .error f => .error f
  | .ok (s1, a) =>
    match s1.blockAt a with
    | none => .error .danglingHandle
    | some b =>
      let p := b.localize text
      .ok (s1.setBlock a (some (p.1.note_localized sev p.2)), some a)

/-- `Errata::diag`, forwarding to `note` with fixed `DIAG` severity. -/
def Store.diagOp (s : Store) (h : Handle) (text : String) : Except Fatal (Store × Handle) :=
  s.noteOp h Severity.DIAG text

/-- `Errata::info`, forwarding to `note` with fixed `INFO` severity. -/
def Store.infoOp (s : Store) (h : Handle) (text : String) : Except Fatal (Store × Handle) :=
  s.noteOp h Severity.INFO text

/-- `Errata::warn`, forwarding to `note` with fixed `WARN` severity. -/
def Store.warnOp (s : Store) (h : Handle) (text : String) : Except Fatal (Store × Handle) :=
  s.noteOp h Severity.WARN text

/-- `Errata::error`, forwarding to `note` with fixed `ERROR` severity. -/
def Store.errorOp (s : Store) (h : Handle) (text : String) : Except Fatal (Store × Handle) :=
  s.noteOp h Severity.ERROR text

/-! ## Configurations: a store together with the live handles

The handle list models the live `Errata` objects of the process; a slot
becomes `none` when its handle is destroyed or holds null.  `refs a hs` is
the number of live handles pointing at address `a`. -/

/-- Number of live handles pointing at address `a`. -/
def refs (a : Nat) : List Handle → Nat
  | [] => 0
  | h :: t => (if h = some a then 1 else 0) + refs a t

/-- A store plus the live handles of the process. -/
structure Config where
  store : Store
  handles : List Handle
deriving DecidableEq, Repr

/-- Well-formedness: each live block's reference count equals the number
of live handles pointing at it, and every non-null handle points at a live
block. -/
def Config.wf (c : Config) : Prop :=
  (∀ a b, c.store.blockAt a = some b → b.ref_count = (refs a c.handles : Int))
  ∧ (∀ h, h ∈ c.handles → ∀ a, h = some a → c.store.blockAt a ≠ none)

/-- Copy construction of a new handle from the handle in slot `i`. -/
def Config.copyAt (c : Config) (i : Nat) : Config :=
  let p := c.store.copyCtor (c.handles.getD i none)
  { store := p.1, handles := c.handles ++ [p.2] }

/-- Move construction of a new handle from the handle in slot `i`: the
pointer transfers, slot `i` is left null, the store is untouched. -/
def Config.moveCtorAt (c : Config) (i : Nat) : Config :=
  { store := c.store, handles := c.handles.set i none ++ [c.handles.getD i none] }

/-- Destruction of the handle in slot `i`: the destructor releases the
reference and the handle stops being live. -/
def Config.destroyAt (c : Config) (i : Nat) : Config :=
  { store := (c.store.release (c.handles.getD i none)).1
    handles := c.handles.set i none }

/-- Move assignment of the handle in slot `j` into the handle in slot `i`:
`if (this != &that) { this->release(); std::swap(_data, that._data); }` —
self-assignment is a no-op; otherwise slot `i`'s old reference is released
(possibly finalizing its block) and the pointers swap, with slot `j` left
holding the null that release left in slot `i`. -/
def Config.moveAssignAt (c : Config) (i j : Nat) : Config :=
  if i = j then c
  else
    { store := (c.store.release (c.handles.getD i none)).1
      handles := (c.handles.set i (c.handles.getD j none)).set j none }

/-- All annotation texts of a handle, most recent first. -/
def Errata.texts (e : Errata) : List String :=
  match e.data with
  | none => []
  | some d => d.notes.map Note.text

/-- An annotation carrying one ERROR message, used in concrete runs. -/
def noteEx : Note :=
  { severity := Severity.ERROR, level := 0, text := "boom" }

/-- A failing block uniquely owned by one handle, used in concrete runs. -/
def blockEx : DataV :=
  { ref_count := 1, notes := [noteEx], severity := Severity.ERROR }

/-- A store holding `blockEx` at address 0 with one registered sink. -/
def storeEx : Store :=
  { blocks := [some blockEx], sinks := [0], log := [] }

/-- A store whose block at address 0 is shared by two handles. -/
def storeSharedEx : Store :=
  { blocks := [some { blockEx with ref_count := 2 }], sinks := [0], log := [] }

/-- The configuration with two live handles aliasing `storeSharedEx`'s block. -/
def configEx : Config :=
  { store := storeSharedEx, handles := [some 0, some 0] }

/-- A handle whose block holds `noteEx`, used in concrete runs. -/
def errataEx : Errata :=
  { data := some { ref_count := 1, notes := [noteEx], severity := Severity.ERROR } }

/-- A handle with 10 free bytes in its arena's current block. -/
def roomyEx : Errata :=
  { data := some { ref_count := 1, arena := { remnant := 10 } } }

/-- A handle with 3 free bytes in its arena's current block. -/
def tightEx : Errata :=
  { data := some { ref_count := 1, arena := { remnant := 3 } } }

/-! ## Helper lemmas -/

theorem list_getD_set_self {α : Type _} (d : α) :
    ∀ (l : List α) (i : Nat) (x : α), i < l.length → (l.set i x).getD i d = x := by
  intro l
  induction l with
  | nil => intro i x h; simp at h
  | cons a t ih =>
    intro i x h
    cases i with
    | zero => rfl
    | succ i => exact ih i x (by simpa using h)

theorem list_getD_set_other {α : Type _} (d : α) :
    ∀ (l : List α) (i j : Nat) (x : α), i ≠ j → (l.set i x).getD j d = l.getD j d := by
  intro l
  induction l with
  | nil => intro i j x _; simp [List.set]
  | cons a t ih =>
    intro i j x hne
    cases i with
    | zero =>
      cases j with
      | zero => exact absurd rfl hne
      | succ j => rfl
    | succ i =>
      cases j with
      | zero => rfl
      | succ j => exact ih i j x (fun h => hne (by rw [h]))

theorem list_getD_mem {α : Type _} (d : α) :
    ∀ (l : List α) (i : Nat), i < l.length → l.getD i d ∈ l := by
  intro l
  induction l with
  | nil => intro i h; simp at h
  | cons a t ih =>
    intro i h
    cases i with
    | zero => exact List.mem_cons_self a t
    | succ i => exact List.mem_cons_of_mem a (ih i (by simpa using h))

theorem blockAt_lt_length {s : Store} {a : Nat} {b : DataV} (h : s.blockAt a = some b) :
    a < s.blocks.length := by
  by_contra hlt
  have : s.blocks.getD a none = none := List.getD_eq_default _ _ (Nat.le_of_not_lt hlt)
  rw [Store.blockAt, this] at h
  exact Option.noConfusion h

theorem blockAt_setBlock_self (s : Store) (a : Nat) (x : Option DataV)
    (h : a < s.blocks.length) : (s.setBlock a x).blockAt a = x :=
  list_getD_set_self none s.blocks a x h

theorem blockAt_setBlock_other (s : Store) (a a2 : Nat) (x : Option DataV)
    (h : a ≠ a2) : (s.setBlock a x).blockAt a2 = s.blockAt a2 :=
  list_getD_set_other none s.blocks a a2 x h

theorem refs_append (a : Nat) (l1 l2 : List Handle) :
    refs a (l1 ++ l2) = refs a l1 + refs a l2 := by
  induction l1 with
  | nil => simp [refs]
  | cons h t ih => simp [refs, ih]; omega

theorem refs_set (a : Nat) :
    ∀ (l : List Handle) (i : Nat) (x : Handle), i < l.length →
      refs a (l.set i x) + (if l.getD i none = some a then 1 else 0)
        = refs a l + (if x = some a then 1 else 0) := by
  intro l
  induction l with
  | nil => intro i x h; simp at h
  | cons hd t ih =>
    intro i x h
    cases i with
    | zero => simp [refs]; omega
    | succ i =>
      have := ih i x (by simpa using h)
      simp only [List.set, refs, List.getD_cons_succ]
      omega

theorem refs_zero_of_notMem (a : Nat) :
    ∀ l : List Handle, refs a l = 0 → ∀ h ∈ l, h ≠ some a := by
  intro l
  induction l with
  | nil => intro _ h hm; simp at hm
  | cons hd t ih =>
    intro hz h hm
    simp only [refs] at hz
    rcases List.mem_cons.mp hm with rfl | hmem
    · intro heq
      rw [heq] at hz
      simp at hz
    · exact ih (by omega) h hmem

theorem refs_pos_of_mem {a : Nat} :
    ∀ {l : List Handle}, some a ∈ l → 1 ≤ refs a l := by
  intro l
  induction l with
  | nil => intro hm; simp at hm
  | cons hd t ih =>
    intro hm
    rcases List.mem_cons.mp hm with heq | hmem
    · simp [refs, ← heq]
    · have := ih hmem
      simp only [refs]
      omega

theorem arena_alloc_stored (a : ArenaV) (n : Nat) : (a.alloc n).stored = a.stored := by
  rw [ArenaV.alloc]
  split <;> rfl

theorem arena_alloc_fresh_of_le (a : ArenaV) (n : Nat) (h : n ≤ a.remnant) :
    (a.alloc n).freshAllocs = a.freshAllocs ∧ (a.alloc n).remnant = a.remnant - n := by
  rw [ArenaV.alloc, if_pos h]
  exact ⟨rfl, rfl⟩

theorem absorb_notes_texts (ns : List Note) :
    ∀ d : DataV, (d.absorb ns).notes.map Note.text
      = ns.map Note.text ++ d.notes.map Note.text := by
  induction ns with
  | nil => intro d; rfl
  | cons n rest ih =>
    intro d
    simp only [DataV.absorb, DataV.localize, List.map_cons, List.map]
    rw [ih d]
    rfl

theorem absorb_notes_length (ns : List Note) :
    ∀ d : DataV, (d.absorb ns).notes.length = ns.length + d.notes.length := by
  intro d
  have h := absorb_notes_texts ns d
  have h1 := congrArg List.length h
  simpa using h1

theorem absorb_stored_mono (ns : List Note) :
    ∀ (d : DataV) (x : String), x ∈ d.arena.stored → x ∈ (d.absorb ns).arena.stored := by
  induction ns with
  | nil => intro d x hx; exact hx
  | cons n rest ih =>
    intro d x hx
    simp only [DataV.absorb, DataV.localize, arena_alloc_stored]
    exact List.mem_append_left _ (ih d x hx)

theorem absorb_stored_of_mem (ns : List Note) :
    ∀ (d : DataV) (n : Note), n ∈ ns → n.text ∈ (d.absorb ns).arena.stored := by
  induction ns with
  | nil => intro d n hm; simp at hm
  | cons hd rest ih =>
    intro d n hm
    rcases List.mem_cons.mp hm with rfl | hmem
    · simp only [DataV.absorb, DataV.localize, arena_alloc_stored]
      exact List.mem_append_right _ (List.mem_singleton.mpr rfl)
    · simp only [DataV.absorb, DataV.localize, arena_alloc_stored]
      exact List.mem_append_left _ (ih d n hmem)

theorem mem_of_mem_set {α : Type _} :
    ∀ (l : List α) (i : Nat) (x y : α), y ∈ l.set i x → y ∈ l ∨ y = x := by
  intro l
  induction l with
  | nil => intro i x y hm; simp [List.set] at hm
  | cons a t ih =>
    intro i x y hm
    cases i with
    | zero =>
      rcases List.mem_cons.mp hm with rfl | hmem
      · exact Or.inr rfl
      · exact Or.inl (List.mem_cons_of_mem a hmem)
    | succ i =>
      rcases List.mem_cons.mp hm with rfl | hmem
      · exact Or.inl (List.mem_cons_self _ _)
      · rcases ih i x y hmem with h | h
        · exact Or.inl (List.mem_cons_of_mem a h)
        · exact Or.inr h

theorem refs_singleton (a : Nat) (h : Handle) :
    refs a [h] = if h = some a then 1 else 0 := by
  simp [refs]

theorem release_blocks (s : Store) (a : Nat) (b : DataV) (hb : s.blockAt a = some b) :
    (s.release (some a)).1.blocks
      = s.blocks.set a (if b.ref_count - 1 = 0 then none
          else some { b with ref_count := b.ref_count - 1 }) := by
  rw [Store.release]
  simp only [hb]
  by_cases hz : b.ref_count - 1 = 0
  · rw [if_pos hz, if_pos hz]
    show ((if b.notes.isEmpty then s
      else { s with log := s.log ++ s.sinks.map fun id => (id, b.notes) }).setBlock a none).blocks = _
    split <;> rfl
  · rw [if_neg hz, if_neg hz]
    rfl

theorem copyAt_wf (c : Config) (hwf : c.wf) (i : Nat) (hi : i < c.handles.length) :
    (c.copyAt i).wf
    ∧ ∀ a b, c.handles.getD i none = some a → c.store.blockAt a = some b →
        (c.copyAt i).store.blockAt a = some { b with ref_count := b.ref_count + 1 } := by
  obtain ⟨hcount, hlive⟩ := hwf
  cases hgi : c.handles.getD i none with
  | none =>
    have hc' : c.copyAt i = { store := c.store, handles := c.handles ++ [none] } := by
      rw [Config.copyAt, hgi]
      rfl
    refine ⟨?_, ?_⟩
    · rw [hc']
      refine ⟨?_, ?_⟩
      · intro a b hb
        rw [hcount a b hb, refs_append, refs_singleton]
        simp
      · intro h hm a2 ha
        rcases List.mem_append.mp hm with hm1 | hm2
        · exact hlive h hm1 a2 ha
        · rw [List.mem_singleton.mp hm2] at ha
          cases ha
    · intro a b hga _
      cases hga
  | some a0 =>
    have hmem : (some a0 : Handle) ∈ c.handles := by
      rw [← hgi]
      exact list_getD_mem none c.handles i hi
    have hbne := hlive _ hmem a0 rfl
    cases hb0 : c.store.blockAt a0 with
    | none => exact absurd hb0 hbne
    | some b0 =>
      have hlt := blockAt_lt_length hb0
      have hc' : c.copyAt i
          = { store := c.store.setBlock a0 (some { b0 with ref_count := b0.ref_count + 1 })
              handles := c.handles ++ [some a0] } := by
        rw [Config.copyAt, hgi]
        simp [Store.copyCtor, hb0]
      refine ⟨⟨?_, ?_⟩, ?_⟩
      · intro a b hb
        rw [hc'] at hb ⊢
        by_cases haa : a0 = a
        · subst haa
          rw [blockAt_setBlock_self _ _ _ hlt] at hb
          injection hb with hb
          subst hb
          have h0 := hcount a0 b0 hb0
          rw [refs_append, refs_singleton, if_pos rfl]
          simp only
          push_cast
          omega
        · rw [blockAt_setBlock_other _ _ _ _ haa] at hb
          have h0 := hcount a b hb
          rw [refs_append, refs_singleton, if_neg (by simpa using haa)]
          omega
      · intro h hm a2 ha
        rw [hc'] at hm ⊢
        rcases List.mem_append.mp hm with hm1 | hm2
        · by_cases haa : a0 = a2
          · subst haa
            rw [blockAt_setBlock_self _ _ _ hlt]
            exact fun h => Option.noConfusion h
          · rw [blockAt_setBlock_other _ _ _ _ haa]
            exact hlive h hm1 a2 ha
        · rw [List.mem_singleton.mp hm2] at ha
          injection ha with ha
          subst ha
          rw [blockAt_setBlock_self _ _ _ hlt]
          exact fun h => Option.noConfusion h
      · intro a b hga hb
        injection hga with hga
        subst hga
        rw [hb0] at hb
        injection hb with hb
        subst hb
        rw [hc']
        exact blockAt_setBlock_self _ _ _ hlt

theorem moveCtorAt_wf (c : Config) (hwf : c.wf) (i : Nat) (hi : i < c.handles.length) :
    (c.moveCtorAt i).wf ∧ (c.moveCtorAt i).store = c.store := by
  obtain ⟨hcount, hlive⟩ := hwf
  refine ⟨⟨?_, ?_⟩, rfl⟩
  · intro a b hb
    have h0 := hcount a b hb
    show b.ref_count = (refs a (c.handles.set i none ++ [c.handles.getD i none]) : Int)
    rw [refs_append, refs_singleton]
    have e1 := refs_set a c.handles i none hi
    rw [if_neg (by simp : ¬ ((none : Handle) = some a))] at e1
    by_cases hg : c.handles.getD i none = some a
    · rw [if_pos hg] at e1 ⊢
      rw [h0]
      push_cast
      omega
    · rw [if_neg hg] at e1 ⊢
      rw [h0]
      push_cast
      omega
  · intro h hm a2 ha
    show c.store.blockAt a2 ≠ none
    rcases List.mem_append.mp hm with hm1 | hm2
    · rcases mem_of_mem_set _ _ _ _ hm1 with hmem | rfl
      · exact hlive h hmem a2 ha
      · cases ha
    · rw [List.mem_singleton.mp hm2] at ha
      exact hlive _ (list_getD_mem none c.handles i hi) a2 ha

theorem destroyAt_wf (c : Config) (hwf : c.wf) (i : Nat) (hi : i < c.handles.length) :
    (c.destroyAt i).wf
    ∧ ∀ a b, c.handles.getD i none = some a → c.store.blockAt a = some b →
        ((b.ref_count = 1 →
          (c.destroyAt i).store.blockAt a = none
          ∧ ∀ h ∈ (c.destroyAt i).handles, h ≠ some a)
        ∧ (b.ref_count ≠ 1 →
          (c.destroyAt i).store.blockAt a
            = some { b with ref_count := b.ref_count - 1 })) := by
  obtain ⟨hcount, hlive⟩ := hwf
  cases hgi : c.handles.getD i none with
  | none =>
    have hst : (c.destroyAt i).store = c.store := by
      show (c.store.release (c.handles.getD i none)).1 = c.store
      rw [hgi]
      rfl
    refine ⟨⟨?_, ?_⟩, ?_⟩
    · intro a b hb
      rw [hst] at hb
      have h0 := hcount a b hb
      show b.ref_count = (refs a (c.handles.set i none) : Int)
      have e1 := refs_set a c.handles i none hi
      rw [hgi, if_neg (by simp : ¬ ((none : Handle) = some a))] at e1
      rw [h0]
      omega
    · intro h hm a2 ha
      rw [hst]
      rcases mem_of_mem_set _ _ _ _ hm with hmem | rfl
      · exact hlive h hmem a2 ha
      · cases ha
    · intro a b hga _
      cases hga
  | some a0 =>
    have hmem : (some a0 : Handle) ∈ c.handles := by
      rw [← hgi]
      exact list_getD_mem none c.handles i hi
    have hbne := hlive _ hmem a0 rfl
    cases hb0 : c.store.blockAt a0 with
    | none => exact absurd hb0 hbne
    | some b0 =>
      have hlt := blockAt_lt_length hb0
      have hr0 := hcount a0 b0 hb0
      have hpos : 1 ≤ refs a0 c.handles := refs_pos_of_mem hmem
      have hba : ∀ a2, (c.destroyAt i).store.blockAt a2
          = (c.store.blocks.set a0 (if b0.ref_count - 1 = 0 then none
              else some { b0 with ref_count := b0.ref_count - 1 })).getD a2 none := by
        intro a2
        show ((c.store.release (c.handles.getD i none)).1.blocks).getD a2 none = _
        rw [hgi, release_blocks c.store a0 b0 hb0]
      have e1 := refs_set a0 c.handles i none hi
      rw [hgi, if_pos rfl, if_neg (by simp : ¬ ((none : Handle) = some a0))] at e1
      refine ⟨⟨?_, ?_⟩, ?_⟩
      · intro a b hb
        rw [hba a] at hb
        by_cases haa : a0 = a
        · subst haa
          rw [list_getD_set_self none _ _ _ hlt] at hb
          by_cases hz : b0.ref_count - 1 = 0
          · rw [if_pos hz] at hb
            cases hb
          · rw [if_neg hz] at hb
            injection hb with hb
            subst hb
            show b0.ref_count - 1 = (refs a0 (c.handles.set i none) : Int)
            rw [hr0] at hz ⊢
            omega
        · rw [list_getD_set_other none _ _ _ _ haa] at hb
          have h0 := hcount a b hb
          have e2 := refs_set a c.handles i none hi
          rw [hgi, if_neg (by simpa using haa),
            if_neg (by simp : ¬ ((none : Handle) = some a))] at e2
          show b.ref_count = (refs a (c.handles.set i none) : Int)
          rw [h0]
          omega
      · intro h hm a2 ha
        rcases mem_of_mem_set _ _ _ _ hm with hmemh | rfl
        on_goal 2 => cases ha
        rw [hba a2]
        by_cases haa : a0 = a2
        · subst haa
          rw [list_getD_set_self none _ _ _ hlt]
          by_cases hz : b0.ref_count - 1 = 0
          · exfalso
            have hone : refs a0 c.handles = 1 := by
              rw [hr0] at hz
              omega
            have hzero : refs a0 (c.handles.set i none) = 0 := by omega
            exact refs_zero_of_notMem a0 _ hzero h hm ha
          · rw [if_neg hz]
            exact fun h2 => Option.noConfusion h2
        · rw [list_getD_set_other none _ _ _ _ haa]
          exact hlive h hmemh a2 ha
      · intro a b hga hb
        injection hga with hga
        subst hga
        rw [hb0] at hb
        injection hb with hb
        subst hb
        constructor
        · intro hone
          have hz : b0.ref_count - 1 = 0 := by omega
          have hone2 : refs a0 c.handles = 1 := by
            rw [hone] at hr0
            omega
          have hzero : refs a0 (c.handles.set i none) = 0 := by omega
          constructor
          · rw [hba a0, list_getD_set_self none _ _ _ hlt, if_pos hz]
          · intro h hm
            exact refs_zero_of_notMem a0 _ hzero h hm
        · intro hne
          have hz : ¬ b0.ref_count - 1 = 0 := by omega
          rw [hba a0, list_getD_set_self none _ _ _ hlt, if_neg hz]

theorem moveAssignAt_wf (c : Config) (hwf : c.wf) (i j : Nat)
    (hi : i < c.handles.length) (hj : j < c.handles.length) (hij : i ≠ j) :
    (c.moveAssignAt i j).wf
    ∧ ∀ a, c.handles.getD i none ≠ some a →
        (c.moveAssignAt i j).store.blockAt a = c.store.blockAt a := by
  obtain ⟨hcount, hlive⟩ := hwf
  have hjmem : c.handles.getD j none ∈ c.handles := list_getD_mem none c.handles j hj
  have hj2 : j < (c.handles.set i (c.handles.getD j none)).length := by
    rw [List.length_set]
    exact hj
  have hgj2 : (c.handles.set i (c.handles.getD j none)).getD j none
      = c.handles.getD j none := list_getD_set_other none _ _ _ _ hij
  have hhandles : (c.moveAssignAt i j).handles
      = (c.handles.set i (c.handles.getD j none)).set j none := by
    rw [Config.moveAssignAt, if_neg hij]
  have hrefs : ∀ a, refs a ((c.handles.set i (c.handles.getD j none)).set j none)
      + (if c.handles.getD i none = some a then 1 else 0) = refs a c.handles := by
    intro a
    have e1 := refs_set a c.handles i (c.handles.getD j none) hi
    have e2 := refs_set a (c.handles.set i (c.handles.getD j none)) j none hj2
    rw [hgj2, if_neg (by simp : ¬ ((none : Handle) = some a))] at e2
    by_cases hg : c.handles.getD j none = some a
    · rw [if_pos hg] at e1 e2
      by_cases hg2 : c.handles.getD i none = some a
      · rw [if_pos hg2] at e1 ⊢
        omega
      · rw [if_neg hg2] at e1 ⊢
        omega
    · rw [if_neg hg] at e1 e2
      by_cases hg2 : c.handles.getD i none = some a
      · rw [if_pos hg2] at e1 ⊢
        omega
      · rw [if_neg hg2] at e1 ⊢
        omega
  have hmem2 : ∀ h, h ∈ (c.moveAssignAt i j).handles → h ∈ c.handles ∨ h = none := by
    intro h hm
    rw [hhandles] at hm
    rcases mem_of_mem_set _ _ _ _ hm with hm1 | rfl
    · rcases mem_of_mem_set _ _ _ _ hm1 with hm2 | rfl
      · exact Or.inl hm2
      · exact Or.inl hjmem
    · exact Or.inr rfl
  cases hgi : c.handles.getD i none with
  | none =>
    have hst : (c.moveAssignAt i j).store = c.store := by
      rw [Config.moveAssignAt, if_neg hij]
      show (c.store.release (c.handles.getD i none)).1 = c.store
      rw [hgi]
      rfl
    refine ⟨⟨?_, ?_⟩, ?_⟩
    · intro a b hb
      rw [hst] at hb
      have h0 := hcount a b hb
      have h1 := hrefs a
      rw [hgi, if_neg (by simp : ¬ ((none : Handle) = some a))] at h1
      rw [hhandles, h0]
      omega
    · intro h hm a2 ha
      rw [hst]
      rcases hmem2 h hm with hm1 | rfl
      · exact hlive h hm1 a2 ha
      · cases ha
    · intro a _
      rw [hst]
  | some a0 =>
    have hmem : (some a0 : Handle) ∈ c.handles := by
      rw [← hgi]
      exact list_getD_mem none c.handles i hi
    have hbne := hlive _ hmem a0 rfl
    cases hb0 : c.store.blockAt a0 with
    | none => exact absurd hb0 hbne
    | some b0 =>
      have hlt := blockAt_lt_length hb0
      have hr0 := hcount a0 b0 hb0
      have hba : ∀ a2, (c.moveAssignAt i j).store.blockAt a2
          = (c.store.blocks.set a0 (if b0.ref_count - 1 = 0 then none
              else some { b0 with ref_count := b0.ref_count - 1 })).getD a2 none := by
        intro a2
        rw [Config.moveAssignAt, if_neg hij]
        show ((c.store.release (c.handles.getD i none)).1.blocks).getD a2 none = _
        rw [hgi, release_blocks c.store a0 b0 hb0]
      refine ⟨⟨?_, ?_⟩, ?_⟩
      · intro a b hb
        rw [hba a] at hb
        rw [hhandles]
        by_cases haa : a0 = a
        · subst haa
          rw [list_getD_set_self none _ _ _ hlt] at hb
          by_cases hz : b0.ref_count - 1 = 0
          · rw [if_pos hz] at hb
            cases hb
          · rw [if_neg hz] at hb
            injection hb with hb
            subst hb
            have h1 := hrefs a0
            rw [hgi, if_pos rfl] at h1
            show b0.ref_count - 1 = _
            rw [hr0] at hz ⊢
            omega
        · rw [list_getD_set_other none _ _ _ _ haa] at hb
          have h0 := hcount a b hb
          have h1 := hrefs a
          rw [hgi, if_neg (by simpa using haa)] at h1
          rw [h0]
          omega
      · intro h hm a2 ha
        rw [hba a2]
        rcases hmem2 h hm with hm1 | rfl
        on_goal 2 => cases ha
        by_cases haa : a0 = a2
        · subst haa
          rw [list_getD_set_self none _ _ _ hlt]
          by_cases hz : b0.ref_count - 1 = 0
          · exfalso
            have hone : refs a0 c.handles = 1 := by
              rw [hr0] at hz
              omega
            have h1 := hrefs a0
            rw [hgi, if_pos rfl] at h1
            have hzero : refs a0 ((c.handles.set i (c.handles.getD j none)).set j none) = 0 := by
              omega
            rw [← hhandles] at hzero
            exact refs_zero_of_notMem a0 _ hzero h hm ha
          · rw [if_neg hz]
            exact fun h2 => Option.noConfusion h2
        · rw [list_getD_set_other none _ _ _ _ haa]
          exact hlive h hm1 a2 ha
      · intro a hne
        have haa : ¬ a0 = a := fun h => hne (by rw [h])
        rw [hba a, list_getD_set_other none _ _ _ _ haa]
        rfl

/-! ## The claims -/

/-- C1: `is_ok()` — and, equivalently, the boolean conversion — returns true iff the
handle is empty (no Data block), or its Data block holds zero annotations, or the
aggregate severity is strictly below the failure threshold WARN; `operator!` returns
the negation. -/
theorem C1_is_ok_iff (e : Errata) :
    (e.is_ok = true ↔
      e.data = none ∨ e.count = 0
        ∨ ∃ d, e.data = some d ∧ sevLt d.severity FAILURE_SEVERITY = true)
    ∧ e.toBool = e.is_ok ∧ e.bang = (!e.is_ok) := by
  refine ⟨?_, rfl, rfl⟩
  rcases e with ⟨_ | d⟩
  · simp [Errata.is_ok]
  · simp only [Errata.is_ok, Errata.count, Bool.or_eq_true, beq_iff_eq,
      Option.some.injEq, reduceCtorEq, false_or]
    constructor
    · rintro (h | h)
      · exact Or.inl h
      · exact Or.inr ⟨d, rfl, h⟩
    · rintro (h | ⟨d2, rfl, h⟩)
      · exact Or.inl h
      · exact Or.inr h

/-- C7 counterexample: copy assignment of `Errata` is not available — the source
deletes it (`operator=(self_type const &) = delete;  // no copy assignemnt.`), so
`a = b` with `b` an lvalue is ill-formed instead of performing reference-counted
aliasing. -/
theorem C7_counterexample : ¬ assignOpDefined AssignForm.copyAssign = true := by
  decide

/-- C7 amended: copy *construction* — not copy assignment, which is deleted — performs
the reference-counted aliasing: the new handle points at the same Data block and the
block's reference count is incremented to reflect both handles; of the assignment
forms only the move form is defined. -/
theorem C7_copy_aliasing (s : Store) (a : Nat) (b : DataV) (hb : s.blockAt a = some b) :
    assignOpDefined AssignForm.copyAssign = false
    ∧ assignOpDefined AssignForm.moveAssign = true
    ∧ (s.copyCtor (some a)).2 = some a
    ∧ (s.copyCtor (some a)).1.blockAt a = some { b with ref_count := b.ref_count + 1 } := by
  have hlt := blockAt_lt_length hb
  refine ⟨rfl, rfl, ?_, ?_⟩
  · simp [Store.copyCtor, hb]
  · simp only [Store.copyCtor, hb]
    exact blockAt_setBlock_self s a _ hlt

/-- C7 witness: the aliasing conclusion at the concrete one-block store. -/
theorem C7_witness :
    (storeEx.copyCtor (some 0)).2 = some 0
    ∧ (storeEx.copyCtor (some 0)).1.blockAt 0
        = some { blockEx with ref_count := blockEx.ref_count + 1 } :=
  ⟨(C7_copy_aliasing storeEx 0 blockEx rfl).2.2.1,
   (C7_copy_aliasing storeEx 0 blockEx rfl).2.2.2⟩

/-- C8 counterexample: for the handle carrying one ERROR annotation, the `Rv<int>`
constructed from it alone does not have result 0: `_r` is absent from that
constructor's mem-initializer list, so it is default-initialized, which for `int`
leaves an indeterminate value (`none`), not 0 — even though `is_ok()` is false as the
claim says. -/
theorem C8_counterexample :
    ¬ ((RvInt.ofErrata errataEx).r = some 0 ∧ (RvInt.ofErrata errataEx).is_ok = false) := by
  decide

/-- C8 amended: an `Rv<int>` constructed only from an Errata carrying an ERROR-severity
annotation has `is_ok() == false`, and its result field is default-initialized — for
`int` an indeterminate value, not a guaranteed 0. -/
theorem C8_rv_of_errata (e : Errata) (d : DataV) (hd : e.data = some d)
    (hne : d.notes ≠ []) (hsev : d.severity = Severity.ERROR) :
    (RvInt.ofErrata e).is_ok = false ∧ (RvInt.ofErrata e).r = none := by
  refine ⟨?_, rfl⟩
  have hlen : (d.notes.length == 0) = false := by
    cases hn : d.notes with
    | nil => exact absurd hn hne
    | cons a t => rfl
  simp [RvInt.is_ok, RvInt.ofErrata, Errata.is_ok, hd, hlen, hsev, sevLt, FAILURE_SEVERITY,
    Severity.val]

/-- C8 witness: the amended conclusion at the concrete ERROR-carrying handle. -/
theorem C8_witness :
    (RvInt.ofErrata errataEx).is_ok = false ∧ (RvInt.ofErrata errataEx).r = none :=
  C8_rv_of_errata errataEx _ rfl (by decide) rfl

/-- C9: `Rv::clear()` clears only the embedded Errata — the result field is unchanged —
and although its declared return type is `self_type &`, its body has no return
statement, so no reference is produced (`none`); using the "returned" reference is
undefined behavior. -/
theorem C9_rv_clear (rv : RvInt) :
    rv.clear.1.r = rv.r ∧ rv.clear.1.errata = { data := none } ∧ rv.clear.2 = none :=
  ⟨rfl, rfl, rfl⟩

/-- C10: `front()` on an empty handle dereferences the null `_data` pointer (modelled
`none`) rather than returning the `NIL_NOTE` sentinel; likewise the null `head()` of an
empty note list is dereferenced; `front()` yields an annotation exactly under the
precondition that at least one annotation is present. -/
theorem C10_front (e : Errata) :
    (e.data = none → e.front = none ∧ e.front ≠ some NIL_NOTE)
    ∧ (∀ d, e.data = some d → d.notes = [] → e.front = none)
    ∧ (1 ≤ e.count → ∃ n, e.front = some n) := by
  rcases e with ⟨ed⟩
  refine ⟨?_, ?_, ?_⟩
  · rintro h
    simp only at h
    subst h
    exact ⟨rfl, by simp [Errata.front]⟩
  · rintro d h hnil
    simp only at h
    subst h
    simp [Errata.front, hnil]
  · intro hc
    cases ed with
    | none => simp [Errata.count] at hc
    | some d =>
      simp only [Errata.count] at hc
      cases hn : d.notes with
      | nil => rw [hn] at hc; simp at hc
      | cons n t => exact ⟨n, by simp [Errata.front, hn]⟩

/-- C10 witness: the null-data dereference at the empty handle, and the defined result
at a handle holding one annotation. -/
theorem C10_witness :
    (Errata.front { data := none } = none
      ∧ Errata.front { data := none } ≠ some NIL_NOTE)
    ∧ ∃ n, errataEx.front = some n :=
  ⟨(C10_front { data := none }).1 rfl, (C10_front errataEx).2.2 (by decide)⟩

theorem configExWf : configEx.wf := by
  constructor
  · intro a b hb
    match a with
    | 0 =>
      have hb2 : some { blockEx with ref_count := 2 } = some b := hb
      injection hb2 with hb2
      rw [← hb2]
      decide
    | a + 1 =>
      have hb2 : (none : Option DataV) = some b := hb
      cases hb2
  · intro h hm a ha
    have hcases : h = some 0 ∨ h = some 0 := by simpa [configEx] using hm
    rcases hcases with rfl | rfl
    all_goals
      injection ha with ha
      rw [← ha]
      decide

/-- C4: the reference-counting protocol maintains the invariant that every live block's
ref_count equals the number of live handles pointing at it: copy construction bumps the
target block's count by one; move construction transfers the pointer leaving the store
untouched; move assignment (between distinct objects) releases only the overwritten
handle's old block and leaves all other blocks' counts unchanged; destruction
decrements the target's count, freeing the block exactly when the count was 1, after
which no live handle references the address — so the count reaches zero exactly once,
the freed address never being decremented again. -/
theorem C4_refcount_invariant (c : Config) (hwf : c.wf) (i j : Nat)
    (hi : i < c.handles.length) (hj : j < c.handles.length) (hij : i ≠ j) :
    ((c.copyAt i).wf
      ∧ ∀ a b, c.handles.getD i none = some a → c.store.blockAt a = some b →
          (c.copyAt i).store.blockAt a = some { b with ref_count := b.ref_count + 1 })
    ∧ ((c.moveCtorAt i).wf ∧ (c.moveCtorAt i).store = c.store)
    ∧ ((c.moveAssignAt i j).wf
      ∧ ∀ a, c.handles.getD i none ≠ some a →
          (c.moveAssignAt i j).store.blockAt a = c.store.blockAt a)
    ∧ ((c.destroyAt i).wf
      ∧ ∀ a b, c.handles.getD i none = some a → c.store.blockAt a = some b →
          ((b.ref_count = 1 →
            (c.destroyAt i).store.blockAt a = none
            ∧ ∀ h ∈ (c.destroyAt i).handles, h ≠ some a)
          ∧ (b.ref_count ≠ 1 →
            (c.destroyAt i).store.blockAt a
              = some { b with ref_count := b.ref_count - 1 }))) :=
  ⟨copyAt_wf c hwf i hi, moveCtorAt_wf c hwf i hi,
   moveAssignAt_wf c hwf i j hi hj hij, destroyAt_wf c hwf i hi⟩

/-- C4 witness: the invariant conclusions at the concrete configuration of two handles
sharing one block with reference count 2: copying preserves well-formedness, and
destroying one handle leaves the block with count 1. -/
theorem C4_witness :
    (configEx.copyAt 0).wf
    ∧ (configEx.destroyAt 0).wf
    ∧ (configEx.destroyAt 0).store.blockAt 0
        = some { { blockEx with ref_count := 2 } with
                 ref_count := ({ blockEx with ref_count := 2 } : DataV).ref_count - 1 } := by
  have h := C4_refcount_invariant configEx configExWf 0 1 (by decide) (by decide) (by decide)
  exact ⟨h.1.1, h.2.2.2.1,
    (h.2.2.2.2 0 { blockEx with ref_count := 2 } rfl rfl).2 (by decide)⟩

/-- C2 counterexample: clearing the last handle of a non-empty failure-level block
invokes no sink.  In `storeEx` — one registered sink, one block with one ERROR note and
reference count 1 — `clearOp` leaves the invocation log empty: `clear()` suppresses
reporting, contradicting the claim that a last handle *cleared* while its block is
non-empty and failing broadcasts to every sink. -/
theorem C2_counterexample :
    (storeEx.clearOp (some 0)).1.log = []
    ∧ storeEx.sinks = [0]
    ∧ storeEx.blockAt 0 = some blockEx
    ∧ blockEx.notes ≠ []
    ∧ sevLt blockEx.severity FAILURE_SEVERITY = false
    ∧ blockEx.ref_count = 1 := by
  refine ⟨by decide, rfl, rfl, by decide, rfl, rfl⟩

/-- C2 amended: when the *last* handle (reference count 1) of a Data block is destroyed
or assigned-over — both go through release — while the block still holds notes, every
sink registered at that moment is invoked exactly once, in registration order, each
receiving the full pre-release view of the erratum, and the block's memory is released
only afterwards; an empty block is released with no sink invocation; an explicit
`clear()` removes the messages before releasing, so finalization through `clear()`
invokes no sink even when the block held failure-level content. -/
theorem C2_sink_dispatch (s : Store) (a : Nat) (b : DataV)
    (hb : s.blockAt a = some b) (h1 : b.ref_count = 1) :
    (b.notes ≠ [] →
      (s.release (some a)).1.log = s.log ++ s.sinks.map (fun id => (id, b.notes)))
    ∧ (b.notes = [] → (s.release (some a)).1.log = s.log)
    ∧ (s.release (some a)).1.blockAt a = none
    ∧ (s.release (some a)).2 = none
    ∧ (s.clearOp (some a)).1.log = s.log
    ∧ (s.clearOp (some a)).1.blockAt a = none := by
  have hlt := blockAt_lt_length hb
  have hrc : b.ref_count - 1 = 0 := by omega
  have hrel : ∀ s2 : Store, s2.blockAt a = some b → s2.release (some a)
      = ((if b.notes.isEmpty then s2
          else { s2 with log := s2.log ++ s2.sinks.map fun id => (id, b.notes) }).setBlock
            a none, none) := by
    intro s2 hb2
    simp [Store.release, hb2, hrc]
  have hrelE : ∀ (s2 : Store) (b2 : DataV), s2.blockAt a = some b2 → b2.ref_count = 1 →
      b2.notes = [] → s2.release (some a) = (s2.setBlock a none, none) := by
    intro s2 b2 hb2 hc2 hn2
    simp [Store.release, hb2, hc2, hn2]
  have hclear : s.clearOp (some a)
      = ((s.setBlock a (some { b with notes := [] })).setBlock a none, none) := by
    rw [Store.clearOp]
    simp only [hb]
    exact hrelE _ { b with notes := [] } (blockAt_setBlock_self s a _ hlt) h1 rfl
  refine ⟨?_, ?_, ?_, ?_, ?_, ?_⟩
  · intro hne
    rw [hrel s hb]
    have : b.notes.isEmpty = false := by
      cases hn : b.notes with
      | nil => exact absurd hn hne
      | cons x t => rfl
    simp [this, Store.setBlock]
  · intro hnil
    rw [hrel s hb]
    simp [hnil, Store.setBlock]
  · rw [hrel s hb]
    have hlen : ∀ s3 : Store, (if b.notes.isEmpty then s3
        else { s3 with log := s3.log ++ s3.sinks.map fun id => (id, b.notes) }).blocks
          = s3.blocks := by
      intro s3; split <;> rfl
    show Store.blockAt _ a = none
    rw [Store.blockAt, Store.setBlock]
    simp only [hlen]
    exact list_getD_set_self none s.blocks a none hlt
  · rw [hrel s hb]
  · rw [hclear]
    rfl
  · rw [hclear]
    show Store.blockAt _ a = none
    rw [Store.blockAt, Store.setBlock]
    have hl2 : (s.setBlock a (some { b with notes := [] })).blocks.length
        = s.blocks.length := List.length_set _ _ _
    exact list_getD_set_self none _ a none (by rw [hl2]; exact hlt)

/-- C2 witness: the dispatch conclusion at the concrete one-sink store holding a
failing block behind a single handle. -/
theorem C2_witness :
    (storeEx.release (some 0)).1.log = storeEx.log ++ storeEx.sinks.map (fun id => (id, blockEx.notes))
    ∧ (storeEx.release (some 0)).1.blockAt 0 = none := by
  have h := C2_sink_dispatch storeEx 0 blockEx rfl rfl
  exact ⟨h.1 (by decide), h.2.2.1⟩

/-- C3: asking to mutate a block shared between handles (ref_count > 1) is the fatal
contract violation, for `note` and each of the severity shortcuts, and no store results
(nothing is silently mutated or forked); mutation succeeds only on the unique owner
(ref_count == 1), pushing the annotation and raising the aggregate severity. -/
theorem C3_shared_mutation_fatal (s : Store) (a : Nat) (b : DataV) (sev : Severity)
    (t : String) (hb : s.blockAt a = some b) :
    (1 < b.ref_count →
      s.noteOp (some a) sev t = .error .sharedMutation
      ∧ s.diagOp (some a) t = .error .sharedMutation
      ∧ s.infoOp (some a) t = .error .sharedMutation
      ∧ s.warnOp (some a) t = .error .sharedMutation
      ∧ s.errorOp (some a) t = .error .sharedMutation)
    ∧ (b.ref_count = 1 →
      ∃ b2, s.noteOp (some a) sev t = .ok (s.setBlock a (some b2), some a)
        ∧ b2.notes = { severity := sev, level := b.level, text := t } :: b.notes
        ∧ b2.severity = sevMax b.severity sev) := by
  constructor
  · intro hshared
    have hne : ¬ b.ref_count = 1 := by omega
    have hwd : s.writeable_data (some a) = .error .sharedMutation := by
      simp [Store.writeable_data, hb, hne]
    have hnote : ∀ sv, s.noteOp (some a) sv t = .error .sharedMutation := by
      intro sv
      simp [Store.noteOp, hwd]
    exact ⟨hnote sev, hnote _, hnote _, hnote _, hnote _⟩
  · intro hone
    have hwd : s.writeable_data (some a) = .ok (s, a) := by
      simp [Store.writeable_data, hb, hone]
    refine ⟨(b.localize t).1.note_localized sev (b.localize t).2, ?_, rfl, rfl⟩
    simp [Store.noteOp, hwd, hb]

/-- C3 witness: the fatal outcome at the shared two-handle store and the successful
mutation at the uniquely owned store. -/
theorem C3_witness :
    storeSharedEx.noteOp (some 0) Severity.INFO "x" = .error .sharedMutation
    ∧ ∃ b2, storeEx.noteOp (some 0) Severity.INFO "x"
        = .ok (storeEx.setBlock 0 (some b2), some 0)
      ∧ b2.notes = { severity := Severity.INFO, level := blockEx.level, text := "x" } :: blockEx.notes
      ∧ b2.severity = sevMax blockEx.severity Severity.INFO := by
  refine ⟨((C3_shared_mutation_fatal storeSharedEx 0 { blockEx with ref_count := 2 }
      Severity.INFO "x" rfl).1 (by decide)).1, ?_⟩
  exact (C3_shared_mutation_fatal storeEx 0 blockEx Severity.INFO "x" rfl).2 rfl

/-- C5: merging B into A yields an annotation count equal to the sum of both counts,
with B's message texts preserved verbatim (and re-homed: each donor text is stored in
the receiver's arena); the move form leaves B the empty handle afterwards, and
releasing an empty handle performs no sink dispatch at all. -/
theorem C5_merge (a b : Errata) :
    (a.noteCopy b).count = a.count + b.count
    ∧ (a.noteCopy b).texts = b.texts ++ a.texts
    ∧ (∀ db, b.data = some db → ∀ n, n ∈ db.notes →
        ∃ da2, (a.noteCopy b).data = some da2 ∧ n.text ∈ da2.arena.stored)
    ∧ (a.noteMove b).1 = a.noteCopy b
    ∧ (a.noteMove b).2 = { data := none }
    ∧ (∀ s : Store, s.release none = (s, none)) := by
  have hwvT : (a.writeableView).notes.map Note.text = a.texts := by
    rcases a with ⟨_ | da⟩ <;> rfl
  have hwvC : (a.writeableView).notes.length = a.count := by
    rcases a with ⟨_ | da⟩ <;> rfl
  rcases b with ⟨_ | db⟩
  · refine ⟨by simp [Errata.noteCopy, Errata.count], by simp [Errata.noteCopy, Errata.texts],
      ?_, rfl, rfl, fun s => rfl⟩
    rintro db h
    cases h
  · refine ⟨?_, ?_, ?_, rfl, rfl, fun s => rfl⟩
    · show (Errata.mk (some ((a.writeableView).absorb db.notes))).count = _
      simp only [Errata.count, absorb_notes_length, hwvC]
      omega
    · show (Errata.mk (some ((a.writeableView).absorb db.notes))).texts = _
      simp only [Errata.texts, absorb_notes_texts, hwvT]
    · rintro db2 h n hn
      injection h with h
      subst h
      exact ⟨_, rfl, absorb_stored_of_mem _ _ n hn⟩

/-- C5 witness: the merge conclusion at two concrete handles, each holding one note. -/
theorem C5_witness :
    (errataEx.noteCopy errataEx).count = errataEx.count + errataEx.count
    ∧ ∃ da2, (errataEx.noteCopy errataEx).data = some da2
        ∧ noteEx.text ∈ da2.arena.stored := by
  have h := C5_merge errataEx errataEx
  exact ⟨h.1, h.2.2.1 _ rfl noteEx (by decide)⟩

/-- C6: `note_v` records exactly the full rendering in both paths: when the rendering
fits the arena's current-block remnant it is rendered once, directly there, and exactly
the consumed bytes are committed from the remnant (no fresh allocation); otherwise the
length is measured, exactly that many bytes are freshly allocated, and the text is
rendered a second time into them — so the recorded annotation text is never
truncated. -/
theorem C6_note_v (e : Errata) (sev : Severity) (txt : String) :
    (e.note_v sev txt).recorded = txt
    ∧ (∃ d2, (e.note_v sev txt).errata.data = some d2
        ∧ d2.notes.head? = some { severity := sev, level := (e.writeableView).level, text := txt })
    ∧ (txt.length ≤ (e.writeableView).arena.remnant →
        (e.note_v sev txt).fast = true ∧ (e.note_v sev txt).renders = 1
        ∧ ∃ d2, (e.note_v sev txt).errata.data = some d2
            ∧ d2.arena.remnant = (e.writeableView).arena.remnant - txt.length
            ∧ d2.arena.freshAllocs = (e.writeableView).arena.freshAllocs)
    ∧ ((e.writeableView).arena.remnant < txt.length →
        (e.note_v sev txt).fast = false ∧ (e.note_v sev txt).renders = 2
        ∧ ∃ d2, (e.note_v sev txt).errata.data = some d2
            ∧ d2.arena.freshAllocs = (e.writeableView).arena.freshAllocs ++ [txt.length]) := by
  by_cases hle : txt.length ≤ (e.writeableView).arena.remnant
  · have heq : e.note_v sev txt
        = { errata := { data := some (({ e.writeableView with
              arena := (e.writeableView).arena.alloc txt.length } : DataV).note_localized sev txt) }
            recorded := txt, fast := true, renders := 1 } := by
      simp [Errata.note_v, hle]
    refine ⟨by rw [heq], ?_, ?_, ?_⟩
    · rw [heq]
      exact ⟨_, rfl, rfl⟩
    · intro _
      refine ⟨by rw [heq], by rw [heq], ?_⟩
      rw [heq]
      refine ⟨_, rfl, ?_, ?_⟩
      · show ((e.writeableView).arena.alloc txt.length).remnant = _
        exact (arena_alloc_fresh_of_le _ _ hle).2
      · show ((e.writeableView).arena.alloc txt.length).freshAllocs = _
        exact (arena_alloc_fresh_of_le _ _ hle).1
    · intro hlt
      exact absurd hle (by omega)
  · have heq : e.note_v sev txt
        = { errata := { data := some (({ e.writeableView with
              arena := (e.writeableView).arena.alloc txt.length } : DataV).note_localized sev txt) }
            recorded := txt, fast := false, renders := 2 } := by
      simp [Errata.note_v, hle]
    refine ⟨by rw [heq], ?_, ?_, ?_⟩
    · rw [heq]
      exact ⟨_, rfl, rfl⟩
    · intro hc
      exact absurd hc hle
    · intro _
      refine ⟨by rw [heq], by rw [heq], ?_⟩
      rw [heq]
      refine ⟨_, rfl, ?_⟩
      show ((e.writeableView).arena.alloc txt.length).freshAllocs = _
      rw [ArenaV.alloc, if_neg hle]

/-- C6 witness: the fast path at a handle whose remnant fits the rendering and the
fresh-allocation path at one whose remnant is too small. -/
theorem C6_witness :
    ((roomyEx.note_v Severity.WARN "hello").fast = true
      ∧ (roomyEx.note_v Severity.WARN "hello").renders = 1
      ∧ (roomyEx.note_v Severity.WARN "hello").recorded = "hello")
    ∧ ((tightEx.note_v Severity.WARN "hello").fast = false
      ∧ (tightEx.note_v Severity.WARN "hello").renders = 2
      ∧ (tightEx.note_v Severity.WARN "hello").recorded = "hello") := by
  have h1 := C6_note_v roomyEx Severity.WARN "hello"
  have h2 := C6_note_v tightEx Severity.WARN "hello"
  have f1 := h1.2.2.1 (by decide)
  have f2 := h2.2.2.2 (by decide)
  exact ⟨⟨f1.1, f1.2.1, h1.1⟩, ⟨f2.1, f2.2.1, h2.1⟩⟩

end Swoc
